import Mathlib

/-!
Verification development for the polygon ↔ cell conversion engine documented
by `src/Tutorials/H3_polygon_tutorial.ipynb` and its design spec.  The engine
itself (the `h3` library: `LatLngPoly`, `LatLngMultiPoly`, `geo_to_h3shape`,
`h3shape_to_geo`, `h3shape_to_cells`, `cells_to_h3shape`) is not part of this
repository's sources — the notebook only calls it — so every definition below
is modelled from the spec's own words, with the Grid Index treated as an
abstract oracle exactly as the spec prescribes.

Coordinates are rationals (ℚ): the spec works in plain latitude/longitude
space with no geodesic correction, and every rational is a finite number, so
the "coordinates must be finite" check of the Geo Adapter is vacuous here.
-/

namespace CHM

/-- A Vertex is a (latitude, longitude) pair in degrees; no altitude. -/
abbrev Vertex : Type := ℚ × ℚ

/-- A Loop is an ordered sequence of Vertices, semantically closed
(the last vertex connects back to the first). -/
abbrev Loop : Type := List Vertex

/-- A Cell is an opaque identifier naming one grid element: an integer in the
real grid system. -/
abbrev Cell : Type := ℕ

/-- Modelled from the spec: resolutions form "a fixed valid range"; the real
grid system uses the integers 0..15. -/
def resMax : ℕ := 15

/-- A resolution is valid when it lies in the supported range. -/
def validRes (r : ℕ) : Bool := r ≤ resMax

/-- Modelled from the spec: the error kinds surfaced by the engine
(spec §7). -/
inductive H3Error : Type
  | invalidLoop : H3Error
  | malformedGeo : H3Error
  | invalidResolution : H3Error
  | unsupportedCellSet : H3Error
deriving DecidableEq, Repr

/-- Modelled from the spec: a `LatLngPoly` (Shape Model Polygon) is one outer
Loop plus an ordered sequence of zero or more hole Loops. -/
structure LatLngPoly : Type where
  outer : Loop
  holes : List Loop
deriving DecidableEq, Repr

/-- Modelled from the spec: an `H3Shape` is either a `LatLngPoly` or a
`LatLngMultiPoly` (an ordered sequence of polygons). -/
inductive H3Shape : Type
  | poly : LatLngPoly → H3Shape
  | mpoly : List LatLngPoly → H3Shape
deriving DecidableEq, Repr

/-- The list of constituent polygons of an `H3Shape`. -/
def H3Shape.polys : H3Shape → List LatLngPoly
  | .poly p => [p]
  | .mpoly ps => ps

/-- Modelled from the spec: constructing a `LatLngPoly` from an outer loop and
zero or more hole loops fails synchronously with `InvalidLoop` when any
supplied loop has fewer than 3 vertices; on success the polygon holds the
loops exactly as supplied (no winding normalization). -/
def mkLatLngPoly (outer : Loop) (holes : List Loop) : Except H3Error LatLngPoly :=
  if outer.length < 3 || holes.any (fun h => h.length < 3) then
    .error .invalidLoop
  else
    .ok ⟨outer, holes⟩

/-- Modelled from the spec: the Grid Index oracle (spec §6) — it maps a cell
to its centroid vertex, lists the cells existing at a resolution, and gives
same-resolution edge-adjacency.  It is "assumed correct" and opaque, so it is
a plain structure parameter of the engine. -/
structure GridIndex : Type where
  centroid : Cell → Vertex
  cellsAtRes : ℕ → Finset Cell
  neighbors : Cell → Finset Cell

/-! ### Point-in-polygon: the ray-crossing (even-odd) rule

Modelled from the spec: "the point is included if it is inside the outer loop
and not inside any hole loop, using a standard ray-crossing (even-odd) rule
evaluated in latitude/longitude space".  The ray is cast along the longitude
axis at the point's latitude; an edge crosses it when the edge straddles the
point's latitude strictly and the intersection longitude lies strictly east of
the point. -/

/-- Whether the closed edge from `a` to `b` crosses the eastward ray from
point `p` (standard crossing-number edge test). -/
def edgeCrosses (p a b : Vertex) : Bool :=
  (decide (p.1 < a.1) != decide (p.1 < b.1)) &&
  decide (p.2 < a.2 + (b.2 - a.2) * (p.1 - a.1) / (b.1 - a.1))

/-- The list of consecutive (adjacent) pairs of a list. -/
def zipTail (l : List Vertex) : List (Vertex × Vertex) :=
  l.zip l.tail

/-- The cyclic edge list of a loop: consecutive pairs plus the closing edge
from the last vertex back to the first. -/
def cyclicEdges : Loop → List (Vertex × Vertex)
  | [] => []
  | a :: t => (a :: t).zip (t ++ [a])

/-- The crossing number of point `p` against loop `L`: how many cyclic edges
of `L` cross the eastward ray from `p`. -/
def crossingNumber (p : Vertex) (L : Loop) : ℕ :=
  (cyclicEdges L).countP (fun e => edgeCrosses p e.1 e.2)

/-- Even-odd containment: `p` is inside loop `L` iff its crossing number is
odd. -/
def loopContains (L : Loop) (p : Vertex) : Bool :=
  crossingNumber p L % 2 == 1

/-- Point-in-polygon-with-holes: inside the outer loop and not inside any
hole loop. -/
def polyContains (poly : LatLngPoly) (p : Vertex) : Bool :=
  loopContains poly.outer p && poly.holes.all (fun h => !loopContains h p)

/-! ### Polyfill Engine

Modelled from the spec (§4.3): candidate cells at the resolution are tested
one by one against the containment predicate; the candidate seed is an
over-approximation "independent of winding", modelled here as the Grid Index's
full cell population at the resolution, which the containment filter then
narrows to exactly the cells whose representative point (centroid) lies in the
shape. -/

/-- The cell set of one polygon at resolution `r`: every cell at `r` whose
centroid satisfies the point-in-polygon-with-holes predicate. -/
def polygonToCells (G : GridIndex) (poly : LatLngPoly) (r : ℕ) : Finset Cell :=
  (G.cellsAtRes r).filter (fun c => polyContains poly (G.centroid c) = true)

/-- Modelled from the spec: `h3shape_to_cells` (polyfill).  Fails with
`InvalidResolution` outside the supported range; a MultiPolygon's result is
the union of its constituent polygons' cell sets (the union deduplicates). -/
def h3shape_to_cells (G : GridIndex) (s : H3Shape) (r : ℕ) :
    Except H3Error (Finset Cell) :=
  if validRes r then
    match s with
    | .poly p => .ok (polygonToCells G p r)
    | .mpoly ps => .ok (ps.foldr (fun p acc => polygonToCells G p r ∪ acc) ∅)
  else
    .error .invalidResolution

/-- Deterministic output enumeration of a Cell Set: ascending identifier
order. -/
def enumerateCells (s : Finset Cell) : List Cell :=
  s.sort (· ≤ ·)

/-! ### Loop orientation (shoelace signed area) -/

/-- Twice the signed area of a loop by the shoelace formula over its cyclic
edges, in latitude/longitude space with longitude as the x axis and latitude
as the y axis.  Positive means counterclockwise. -/
def signedArea (L : Loop) : ℚ :=
  ((cyclicEdges L).map (fun e => e.1.2 * e.2.1 - e.2.2 * e.1.1)).sum

/-- A loop is counterclockwise when its signed area is positive. -/
def isCCW (L : Loop) : Bool :=
  decide (0 < signedArea L)

/-- A loop is clockwise when its signed area is negative. -/
def isCW (L : Loop) : Bool :=
  decide (signedArea L < 0)

/-- Emit a loop in counterclockwise order: keep it if it already is,
otherwise reverse it. -/
def orientCCW (L : Loop) : Loop :=
  if 0 < signedArea L then L else L.reverse

/-- Emit a loop in clockwise order: keep it if it already is, otherwise
reverse it. -/
def orientCW (L : Loop) : Loop :=
  if signedArea L < 0 then L else L.reverse

/-! ### Dissolve Engine

Modelled from the spec (§4.4): the Cell Set is partitioned into maximal
connected components under shared-edge adjacency; each component's outer
boundary and interior-gap holes are traced by walking shared edges — a
geometric walk over the Grid Index oracle's cell boundaries, modelled here as
a tracing oracle producing the raw traced loops — and the loops are emitted
right-hand-rule compliant: outer loops counterclockwise, holes clockwise. -/

/-- One step of reachability saturation inside `cells`: grow `s` by every
cell of `cells` edge-adjacent to some cell of `s`. -/
def growStep (G : GridIndex) (cells s : Finset Cell) : Finset Cell :=
  s ∪ cells.filter (fun c => ∃ d ∈ s, c ∈ G.neighbors d)

/-- Iterate reachability saturation `n` times. -/
def growIter (G : GridIndex) (cells : Finset Cell) : ℕ → Finset Cell → Finset Cell
  | 0, s => s
  | n + 1, s => growIter G cells n (growStep G cells s)

/-- The maximal connected component of `cells` containing `c`: saturate
edge-adjacency from `{c}`; `cells.card` steps always suffice. -/
def reachSet (G : GridIndex) (cells : Finset Cell) (c : Cell) : Finset Cell :=
  growIter G cells cells.card {c}

/-- Modelled from the spec: the partition of a Cell Set into maximal connected
components under shared-edge adjacency, listed deterministically by the
minimum cell identifier of each component (walking the cells in ascending
order and keeping each component's first occurrence). -/
def components (G : GridIndex) (cells : Finset Cell) : List (Finset Cell) :=
  ((cells.sort (· ≤ ·)).map (reachSet G cells)).dedup

/-- Modelled from the spec: the boundary-tracing step of the Dissolve Engine
is a walk over shared edges between cells in the set and cells outside it,
reading vertex geometry from the Grid Index oracle; since that geometry is
opaque, the raw traced loops of a component (one outer loop, plus one loop
per enclosed interior gap) are modelled as an oracle. -/
structure Tracer : Type where
  traceOuter : Finset Cell → Loop
  traceHoles : Finset Cell → List Loop

/-- Assemble one component's polygon: the traced outer loop emitted
counterclockwise, each traced hole loop emitted clockwise (right-hand
rule). -/
def dissolveComponent (T : Tracer) (comp : Finset Cell) : LatLngPoly :=
  ⟨orientCCW (T.traceOuter comp), (T.traceHoles comp).map orientCW⟩

/-- Assemble the per-component polygons into the output shape: a single
component collapses to a plain `LatLngPoly`, anything else (including zero
components) is a `LatLngMultiPoly`. -/
def assemble (T : Tracer) : List (Finset Cell) → H3Shape
  | [comp] => .poly (dissolveComponent T comp)
  | comps => .mpoly (comps.map (dissolveComponent T))

/-- Modelled from the spec: `cells_to_h3shape` (dissolve).  Each connected
component becomes one polygon; a single connected boundary with no sibling
collapses to a plain `LatLngPoly`. -/
def cells_to_h3shape (G : GridIndex) (T : Tracer) (cells : Finset Cell) :
    H3Shape :=
  assemble T (components G cells)

/-! ### Geo Adapter

Modelled from the spec (§4.2, §6): the external Geo structure is a tagged
union — "Polygon" with coordinate rings, or "MultiPolygon" with an array of
ring groups; a ring is a closed ordered array of (longitude, latitude) pairs.
Following the spec's design note, the duck-typed input of `geo_to_h3shape`
(raw geo or already-typed shape) is a tagged variant. -/

/-- A ring of a Geo structure: (longitude, latitude) pairs, closed
(first == last). -/
abbrev GeoRing : Type := List (ℚ × ℚ)

/-- The external GeoJSON-like tagged structure. -/
inductive Geo : Type
  | polygon : List GeoRing → Geo
  | multiPolygon : List (List GeoRing) → Geo
deriving DecidableEq, Repr

/-- The input accepted by `geo_to_h3shape`: a raw Geo structure or an
already-constructed `H3Shape`. -/
inductive GeoInput : Type
  | geo : Geo → GeoInput
  | shape : H3Shape → GeoInput
deriving DecidableEq, Repr

/-- Outbound ring emission: swap each vertex to (longitude, latitude) order
and re-append the closing vertex. -/
def closeRing (l : Loop) : GeoRing :=
  match l with
  | [] => []
  | a :: t => ((a :: t).map Prod.swap) ++ [Prod.swap a]

/-- The ring group of one polygon: the outer ring followed by one ring per
hole, each emitted exactly as stored (no winding correction). -/
def polyRings (p : LatLngPoly) : List GeoRing :=
  closeRing p.outer :: p.holes.map closeRing

/-- Modelled from the spec: `h3shape_to_geo`, the outbound Geo Adapter —
re-append the closing vertex, swap to (longitude, latitude) order, wrap in
the appropriate "Polygon"/"MultiPolygon" tag. -/
def h3shape_to_geo : H3Shape → Geo
  | .poly p => .polygon (polyRings p)
  | .mpoly ps => .multiPolygon (ps.map polyRings)

/-- Modelled from the spec: the `__geo_interface__` property implemented by
`LatLngPoly` and `LatLngMultiPoly` — a GeoJSON representation in which points
are given in lng/lat order and the last vertex repeats the first.  Written
independently of `h3shape_to_geo`: each loop is closed first and swapped
afterwards. -/
def ringOfLoop (l : Loop) : GeoRing :=
  match l with
  | [] => []
  | a :: t => (a :: (t ++ [a])).map Prod.swap

/-- The `__geo_interface__` ring group of one polygon. -/
def interfaceRings (p : LatLngPoly) : List GeoRing :=
  ringOfLoop p.outer :: p.holes.map ringOfLoop

/-- The `__geo_interface__` property of an `H3Shape`. -/
def geo_interface : H3Shape → Geo
  | .poly p => .polygon (interfaceRings p)
  | .mpoly ps => .multiPolygon (ps.map interfaceRings)

/-- Inbound ring parsing: strip the duplicate closing vertex and swap each
pair back to (latitude, longitude) order. -/
def openRing (r : GeoRing) : Loop :=
  r.dropLast.map Prod.swap

/-- A ring group is well formed when it has an outer ring and every ring has
at least 4 coordinate pairs (3 distinct + 1 repeated closer). -/
def ringsOk (rings : List GeoRing) : Bool :=
  !rings.isEmpty && rings.all (fun r => 4 ≤ r.length)

/-- Parse one ring group into a polygon. -/
def ringsToPoly (rings : List GeoRing) : Except H3Error LatLngPoly :=
  match rings with
  | [] => .error .malformedGeo
  | r :: hs =>
    if ringsOk (r :: hs) then .ok ⟨openRing r, hs.map openRing⟩
    else .error .malformedGeo

/-- Modelled from the spec: `geo_to_h3shape`, the inbound Geo Adapter — an
already-constructed `H3Shape` passes through unchanged; a "Polygon" or
"MultiPolygon" structure is parsed ring by ring, failing with `MalformedGeo`
when a ring group lacks an outer ring or a ring has under 4 coordinate pairs
(every rational coordinate is a finite number, so the finiteness check is
vacuous; an unrecognized tag is unrepresentable in the tagged union). -/
def geo_to_h3shape : GeoInput → Except H3Error H3Shape
  | .shape s => .ok s
  | .geo (.polygon rings) => (ringsToPoly rings).map .poly
  | .geo (.multiPolygon groups) =>
    (groups.mapM ringsToPoly).map .mpoly

/-- Convenience composition `geo_to_cells` (spec §6). -/
def geo_to_cells (G : GridIndex) (g : GeoInput) (r : ℕ) :
    Except H3Error (Finset Cell) :=
  (geo_to_h3shape g).bind (fun s => h3shape_to_cells G s r)

/-- Convenience composition `cells_to_geo` (spec §6). -/
def cells_to_geo (G : GridIndex) (T : Tracer) (cells : Finset Cell) : Geo :=
  h3shape_to_geo (cells_to_h3shape G T cells)

/-! ### Auxiliary notions used by the statements and proofs -/

/-- The last vertex of a loop (default `(0, 0)` on the empty loop). -/
def lastV (l : List Vertex) : Vertex :=
  l.getLastD (0, 0)

/-- The first vertex of a loop (default `(0, 0)` on the empty loop). -/
def headV (l : List Vertex) : Vertex :=
  l.headD (0, 0)

/-- The winding-insensitive vertex data of a polygon: the multiset of outer
vertices together with the list of hole vertex multisets. -/
def polyVertexData (p : LatLngPoly) : Multiset Vertex × List (Multiset Vertex) :=
  ((p.outer : Multiset Vertex), p.holes.map (fun h => (h : Multiset Vertex)))

/-! ### Concrete instances used to witness the theorems -/

/-- A tiny concrete Grid Index: resolution 7 has the two cells `0` and `1`,
with centroids `(1/2, 1/2)` and `(5, 5)`; no adjacencies. -/
def G₀ : GridIndex where
  centroid := fun c => if c = 0 then ((1 : ℚ) / 2, (1 : ℚ) / 2) else ((5 : ℚ), (5 : ℚ))
  cellsAtRes := fun r => if r = 7 then {0, 1} else ∅
  neighbors := fun _ => ∅

/-- The unit square as an outer loop (counterclockwise). -/
def sqLoop : Loop := [(0, 0), (0, 1), (1, 1), (1, 0)]

/-- A small triangular hole around `(1/2, 1/2)` inside the unit square. -/
def tri : Loop := [(1/4, 1/4), (1/4, 3/4), (3/4, 1/2)]

/-- The unit square polygon with no holes. -/
def p₀ : LatLngPoly := ⟨sqLoop, []⟩

/-- The unit square polygon with the triangular hole. -/
def p₁ : LatLngPoly := ⟨sqLoop, [tri]⟩

/-- `p₁` with its hole loop reversed. -/
def p₁r : LatLngPoly := ⟨sqLoop, [tri.reverse]⟩

/-- The polyfill of the unit square at resolution 7 in `G₀`. -/
def S₀ : Finset Cell := polygonToCells G₀ p₀ 7

/-- The polyfill of the holed square at resolution 7 in `G₀`. -/
def S₁ : Finset Cell := polygonToCells G₀ p₁ 7

/-- A concrete tracing oracle: every component traces to the unit square
with the triangular hole. -/
def T₀ : Tracer where
  traceOuter := fun _ => sqLoop
  traceHoles := fun _ => [tri]

/-! ## Helper lemmas on loops and cyclic edges -/

theorem lastV_cons_cons (a b : Vertex) (t : List Vertex) :
    lastV (a :: b :: t) = lastV (b :: t) := by
  simp [lastV]

theorem lastV_concat (u : List Vertex) (a : Vertex) :
    lastV (u ++ [a]) = a := by
  simp [lastV]

theorem lastV_reverse (l : List Vertex) :
    lastV l.reverse = headV l := by
  cases l with
  | nil => rfl
  | cons c v => rw [List.reverse_cons, lastV_concat]; rfl

theorem headV_reverse (l : List Vertex) :
    headV l.reverse = lastV l := by
  have h := lastV_reverse l.reverse
  rw [List.reverse_reverse] at h
  exact h.symm

theorem zipTail_cons_cons (a b : Vertex) (t : List Vertex) :
    zipTail (a :: b :: t) = (a, b) :: zipTail (b :: t) := rfl

theorem zip_closing (t : List Vertex) (a x : Vertex) :
    (a :: t).zip (t ++ [x]) = zipTail (a :: t) ++ [(lastV (a :: t), x)] := by
  induction t generalizing a with
  | nil => simp [zipTail, lastV]
  | cons b s ih =>
    show (a, b) :: (b :: s).zip (s ++ [x]) = _
    rw [ih b, zipTail_cons_cons, lastV_cons_cons]
    rfl

theorem cyclicEdges_cons (a : Vertex) (t : List Vertex) :
    cyclicEdges (a :: t) = zipTail (a :: t) ++ [(lastV (a :: t), a)] :=
  zip_closing t a a

theorem zipTail_concat (c : Vertex) (v : List Vertex) (a : Vertex) :
    zipTail ((c :: v) ++ [a]) = zipTail (c :: v) ++ [(lastV (c :: v), a)] := by
  induction v generalizing c with
  | nil => simp [zipTail, lastV]
  | cons d w ih =>
    show zipTail (c :: d :: (w ++ [a])) = _
    rw [zipTail_cons_cons, show d :: (w ++ [a]) = (d :: w) ++ [a] from rfl, ih d,
      zipTail_cons_cons, lastV_cons_cons]
    rfl

theorem zipTail_reverse (l : List Vertex) :
    zipTail l.reverse = ((zipTail l).map Prod.swap).reverse := by
  cases l with
  | nil => rfl
  | cons a t =>
    cases t with
    | nil => rfl
    | cons b s =>
      induction s generalizing a b with
      | nil => rfl
      | cons c u ih =>
        have hrev : (a :: b :: c :: u).reverse = (b :: c :: u).reverse ++ [a] := by
          simp
        obtain ⟨d, v, hdv⟩ : ∃ d v, (b :: c :: u).reverse = d :: v := by
          cases h : (b :: c :: u).reverse with
          | nil => simp at h
          | cons d v => exact ⟨d, v, rfl⟩
        rw [hrev, hdv, zipTail_concat, ← hdv, ih b c, lastV_reverse,
          zipTail_cons_cons]
        simp [headV, zipTail_cons_cons]

theorem cyclicEdges_reverse_perm (l : List Vertex) :
    (cyclicEdges l.reverse).Perm ((cyclicEdges l).map Prod.swap) := by
  cases l with
  | nil => simp [cyclicEdges]
  | cons a t =>
    obtain ⟨c, v, hcv⟩ : ∃ c v, (a :: t).reverse = c :: v := by
      cases h : (a :: t).reverse with
      | nil => simp at h
      | cons c v => exact ⟨c, v, rfl⟩
    have hc : c = headV ((a :: t).reverse) := by rw [hcv]; rfl
    rw [hcv, cyclicEdges_cons, ← hcv, hc, zipTail_reverse, lastV_reverse,
      headV_reverse, cyclicEdges_cons]
    rw [List.map_append]
    refine List.Perm.append ?_ ?_
    · exact ((zipTail (a :: t)).map Prod.swap).reverse_perm
    · show [(headV (a :: t), lastV (a :: t))].Perm _
      simp [headV]

theorem sum_map_neg_rat (l : List ℚ) : (l.map (fun x => -x)).sum = -l.sum := by
  induction l with
  | nil => simp
  | cons a t ih => simp [ih]; ring

/-! ## The crossing-number test is invariant under loop reversal -/

theorem crossLng_eq (p a b : Vertex) (h : a.1 ≠ b.1) :
    a.2 + (b.2 - a.2) * (p.1 - a.1) / (b.1 - a.1)
      = b.2 + (a.2 - b.2) * (p.1 - b.1) / (a.1 - b.1) := by
  have h1 : b.1 - a.1 ≠ 0 := sub_ne_zero.mpr (Ne.symm h)
  have h2 : a.1 - b.1 ≠ 0 := sub_ne_zero.mpr h
  field_simp
  ring

theorem edgeCrosses_swap (p a b : Vertex) :
    edgeCrosses p a b = edgeCrosses p b a := by
  unfold edgeCrosses
  by_cases h1 : p.1 < a.1 <;> by_cases h2 : p.1 < b.1
  · simp [h1, h2]
  · have hne : a.1 ≠ b.1 := fun he => h2 (he ▸ h1)
    rw [crossLng_eq p a b hne]
    simp [h1, h2]
  · have hne : a.1 ≠ b.1 := fun he => h1 (he ▸ h2)
    rw [crossLng_eq p a b hne]
    simp [h1, h2]
  · simp [h1, h2]

theorem crossingNumber_reverse (p : Vertex) (L : Loop) :
    crossingNumber p L.reverse = crossingNumber p L := by
  unfold crossingNumber
  rw [(cyclicEdges_reverse_perm L).countP_eq, List.countP_map]
  refine List.countP_congr (fun e _ => ?_)
  show (edgeCrosses p e.2 e.1 = true) ↔ _
  rw [edgeCrosses_swap]

theorem loopContains_reverse (L : Loop) (p : Vertex) :
    loopContains L.reverse p = loopContains L p := by
  unfold loopContains
  rw [crossingNumber_reverse]

/-! ## Signed area and orientation -/

theorem signedArea_reverse (L : Loop) : signedArea L.reverse = -signedArea L := by
  unfold signedArea
  rw [((cyclicEdges_reverse_perm L).map
    (fun e => e.1.2 * e.2.1 - e.2.2 * e.1.1)).sum_eq, List.map_map]
  have h2 : ((fun (e : Vertex × Vertex) => e.1.2 * e.2.1 - e.2.2 * e.1.1) ∘ Prod.swap)
      = fun (e : Vertex × Vertex) => -(e.1.2 * e.2.1 - e.2.2 * e.1.1) := by
    funext e
    simp only [Function.comp_apply, Prod.swap, Prod.fst, Prod.snd]
    ring
  rw [h2, show (fun (e : Vertex × Vertex) => -(e.1.2 * e.2.1 - e.2.2 * e.1.1))
      = (fun x => -x) ∘ (fun (e : Vertex × Vertex) => e.1.2 * e.2.1 - e.2.2 * e.1.1)
    from rfl, ← List.map_map, sum_map_neg_rat]

theorem orientCCW_isCCW (L : Loop) (h : signedArea L ≠ 0) :
    isCCW (orientCCW L) = true := by
  unfold orientCCW isCCW
  by_cases h0 : 0 < signedArea L
  · simp [h0]
  · have hlt : signedArea L < 0 := lt_of_le_of_ne (not_lt.mp h0) h
    rw [if_neg h0]
    simp only [signedArea_reverse, decide_eq_true_eq]
    linarith

theorem orientCW_isCW (L : Loop) (h : signedArea L ≠ 0) :
    isCW (orientCW L) = true := by
  unfold orientCW isCW
  by_cases h0 : signedArea L < 0
  · simp [h0]
  · have hgt : 0 < signedArea L := lt_of_le_of_ne (not_lt.mp h0) (Ne.symm h)
    rw [if_neg h0]
    simp only [signedArea_reverse, decide_eq_true_eq]
    linarith

/-! ## Supporting lemmas about the engines -/

theorem h3shape_to_cells_poly (G : GridIndex) (p : LatLngPoly) (r : ℕ)
    (hr : validRes r = true) :
    h3shape_to_cells G (.poly p) r = .ok (polygonToCells G p r) := by
  unfold h3shape_to_cells
  rw [if_pos hr]

theorem h3shape_to_cells_invalid (G : GridIndex) (s : H3Shape) (r : ℕ)
    (hr : validRes r = false) :
    h3shape_to_cells G s r = .error .invalidResolution := by
  unfold h3shape_to_cells
  rw [hr]
  rfl

theorem mem_polygonToCells (G : GridIndex) (p : LatLngPoly) (r : ℕ) (c : Cell) :
    c ∈ polygonToCells G p r ↔
      c ∈ G.cellsAtRes r ∧ polyContains p (G.centroid c) = true := by
  unfold polygonToCells
  exact Finset.mem_filter

theorem polyContains_iff (p : LatLngPoly) (v : Vertex) :
    polyContains p v = true ↔
      (loopContains p.outer v = true ∧
       ∀ h ∈ p.holes, loopContains h v = false) := by
  unfold polyContains
  rw [Bool.and_eq_true, List.all_eq_true]
  refine and_congr_right (fun _ => ⟨fun ha h hh => ?_, fun ha h hh => ?_⟩)
  · have := ha h hh
    rwa [Bool.not_eq_true'] at this
  · rw [Bool.not_eq_true']
    exact ha h hh

theorem mem_foldr_union (G : GridIndex) (r : ℕ) (c : Cell) (ps : List LatLngPoly) :
    c ∈ ps.foldr (fun p acc => polygonToCells G p r ∪ acc) ∅ ↔
      ∃ p ∈ ps, c ∈ polygonToCells G p r := by
  induction ps with
  | nil => simp
  | cons q t ih => simp [ih]

theorem assemble_polys (T : Tracer) (comps : List (Finset Cell)) :
    (assemble T comps).polys = comps.map (dissolveComponent T) := by
  match comps with
  | [] => rfl
  | [c] => rfl
  | c :: d :: u => rfl

theorem cells_to_h3shape_polys (G : GridIndex) (T : Tracer) (cells : Finset Cell) :
    (cells_to_h3shape G T cells).polys
      = (components G cells).map (dissolveComponent T) := by
  unfold cells_to_h3shape
  exact assemble_polys T _

theorem openRing_closeRing (l : Loop) : openRing (closeRing l) = l := by
  cases l with
  | nil => rfl
  | cons a t =>
    unfold openRing closeRing
    rw [List.dropLast_concat, List.map_map]
    simp

theorem closeRing_length (l : Loop) (h : 3 ≤ l.length) :
    4 ≤ (closeRing l).length := by
  cases l with
  | nil => simp at h
  | cons a t =>
    unfold closeRing
    simp only [List.length_append, List.length_map, List.length_cons,
      List.length_singleton]
    simp only [List.length_cons] at h
    omega

theorem ringsToPoly_polyRings (p : LatLngPoly)
    (ho : 3 ≤ p.outer.length) (hh : ∀ h ∈ p.holes, 3 ≤ h.length) :
    ringsToPoly (polyRings p) = .ok p := by
  have hok : ringsOk (closeRing p.outer :: p.holes.map closeRing) = true := by
    unfold ringsOk
    rw [Bool.and_eq_true, List.all_eq_true]
    refine ⟨by simp, fun r hr => ?_⟩
    rw [List.mem_cons] at hr
    rcases hr with hr | hr
    · subst hr
      simpa using closeRing_length _ ho
    · obtain ⟨h0, hh0, rfl⟩ := List.mem_map.mp hr
      simpa using closeRing_length _ (hh h0 hh0)
  show (if ringsOk (closeRing p.outer :: p.holes.map closeRing) = true
      then Except.ok (⟨openRing (closeRing p.outer),
        (p.holes.map closeRing).map openRing⟩ : LatLngPoly)
      else Except.error H3Error.malformedGeo) = Except.ok p
  rw [if_pos hok]
  congr 1
  rw [openRing_closeRing, List.map_map,
    show openRing ∘ closeRing = id from funext openRing_closeRing, List.map_id]

theorem mapM_ringsToPoly (ps : List LatLngPoly)
    (hv : ∀ p ∈ ps, 3 ≤ p.outer.length ∧ ∀ h ∈ p.holes, 3 ≤ h.length) :
    (ps.map polyRings).mapM ringsToPoly = .ok ps := by
  induction ps with
  | nil => rfl
  | cons q t ih =>
    have hq := hv q (List.mem_cons_self q t)
    have ht := ih (fun p hp => hv p (List.mem_cons_of_mem q hp))
    rw [List.map_cons, List.mapM_cons, ringsToPoly_polyRings q hq.1 hq.2, ht]
    rfl

/-! ## Claim theorems -/

/-- Claim C1: for every shape and valid resolution, a cell is in the result
of `h3shape_to_cells` if and only if it exists at that resolution and its
representative point (the cell centroid) is inside the shape's outer loop and
not inside any hole loop, inside-ness being the ray-crossing (even-odd) rule
in latitude/longitude space; in particular, cells whose centroids lie inside
a hole are absent from the result. -/
theorem polyfill_containment (G : GridIndex) (p : LatLngPoly) (r : ℕ)
    (S : Finset Cell) (hS : h3shape_to_cells G (.poly p) r = .ok S) (c : Cell) :
    c ∈ S ↔ c ∈ G.cellsAtRes r ∧
      (loopContains p.outer (G.centroid c) = true ∧
       ∀ h ∈ p.holes, loopContains h (G.centroid c) = false) := by
  cases hr : validRes r with
  | false => rw [h3shape_to_cells_invalid G _ r hr] at hS; cases hS
  | true =>
    rw [h3shape_to_cells_poly G p r hr] at hS
    cases hS
    rw [mem_polygonToCells, polyContains_iff]

/-- Witness for C1: in the concrete grid `G₀` at resolution 7, cell `0`
(centroid `(1/2, 1/2)`) belongs to the polyfill of the plain unit square
because its centroid is inside the square's outer loop and there are no
holes; the hypotheses are discharged at this concrete input. -/
theorem polyfill_containment_witness :
    h3shape_to_cells G₀ (.poly p₀) 7 = .ok S₀ ∧
      (0 ∈ S₀ ↔ 0 ∈ G₀.cellsAtRes 7 ∧
        (loopContains p₀.outer (G₀.centroid 0) = true ∧
         ∀ h ∈ p₀.holes, loopContains h (G₀.centroid 0) = false)) :=
  ⟨rfl, polyfill_containment G₀ p₀ 7 S₀ rfl 0⟩

/-- Claim C2: for a fixed polygon and resolution, reversing the vertex order
of the outer loop and/or of any hole loop leaves the cell set returned by
`h3shape_to_cells` unchanged (containment is computed by the crossing-number
test, which is invariant to loop direction). -/
theorem polyfill_winding_invariant (G : GridIndex) (p q : LatLngPoly) (r : ℕ)
    (ho : q.outer = p.outer ∨ q.outer = p.outer.reverse)
    (hh : List.Forall₂ (fun h h' => h' = h ∨ h' = h.reverse) p.holes q.holes) :
    h3shape_to_cells G (.poly q) r = h3shape_to_cells G (.poly p) r := by
  have hpt : ∀ v, polyContains q v = polyContains p v := by
    intro v
    unfold polyContains
    have h1 : loopContains q.outer v = loopContains p.outer v := by
      rcases ho with h | h
      · rw [h]
      · rw [h, loopContains_reverse]
    have h2 : ∀ (hs qs : List Loop),
        List.Forall₂ (fun h h' => h' = h ∨ h' = h.reverse) hs qs →
        qs.all (fun h => !loopContains h v) = hs.all (fun h => !loopContains h v) := by
      intro hs qs hf
      induction hf with
      | nil => rfl
      | cons hrel _ ihall =>
        rw [List.all_cons, List.all_cons, ihall]
        rcases hrel with h | h
        · rw [h]
        · rw [h, loopContains_reverse]
    rw [h1, h2 _ _ hh]
  cases hr : validRes r with
  | false =>
    rw [h3shape_to_cells_invalid G _ r hr, h3shape_to_cells_invalid G _ r hr]
  | true =>
    rw [h3shape_to_cells_poly G _ r hr, h3shape_to_cells_poly G _ r hr]
    unfold polygonToCells
    congr 1
    refine Finset.filter_congr (fun c _ => ?_)
    rw [hpt]

/-- Witness for C2: reversing the triangular hole of the holed unit square
leaves the polyfill at resolution 7 in `G₀` unchanged; the reversal
hypotheses are discharged at this concrete input. -/
theorem polyfill_winding_invariant_witness :
    (p₁r.outer = p₁.outer ∨ p₁r.outer = p₁.outer.reverse) ∧
    h3shape_to_cells G₀ (.poly p₁r) 7 = h3shape_to_cells G₀ (.poly p₁) 7 :=
  ⟨Or.inl rfl,
   polyfill_winding_invariant G₀ p₁ p₁r 7 (Or.inl rfl)
     (List.Forall₂.cons (Or.inr rfl) List.Forall₂.nil)⟩

/-- Claim C5: an `H3Shape` passes through `geo_to_h3shape` unchanged. -/
theorem geo_to_h3shape_pass_through (s : H3Shape) :
    geo_to_h3shape (.shape s) = .ok s := rfl

/-- Claim C6: the polyfill of a MultiPolygon at a valid resolution is the
set union of the polyfills of its constituent polygons — each constituent's
own `h3shape_to_cells` result is its polygon cell set, and a cell lies in the
MultiPolygon's result iff some constituent polygon produced it (the `Finset`
union deduplicates cells produced by several overlapping polygons). -/
theorem polyfill_multipolygon_union (G : GridIndex) (ps : List LatLngPoly)
    (r : ℕ) (S : Finset Cell)
    (hS : h3shape_to_cells G (.mpoly ps) r = .ok S) :
    (∀ p ∈ ps, h3shape_to_cells G (.poly p) r = .ok (polygonToCells G p r)) ∧
      ∀ c, c ∈ S ↔ ∃ p ∈ ps, c ∈ polygonToCells G p r := by
  cases hr : validRes r with
  | false => rw [h3shape_to_cells_invalid G _ r hr] at hS; cases hS
  | true =>
    refine ⟨fun p _ => h3shape_to_cells_poly G p r hr, fun c => ?_⟩
    unfold h3shape_to_cells at hS
    rw [if_pos hr] at hS
    cases hS
    exact mem_foldr_union G r c ps

/-- Witness for C6: the two-polygon MultiPolygon made of the plain and the
holed unit square, at resolution 7 in `G₀`; the hypothesis is discharged at
this concrete input. -/
theorem polyfill_multipolygon_union_witness :
    (∀ p ∈ [p₀, p₁],
      h3shape_to_cells G₀ (.poly p) 7 = .ok (polygonToCells G₀ p 7)) ∧
      ∀ c, c ∈ [p₀, p₁].foldr (fun p acc => polygonToCells G₀ p 7 ∪ acc) ∅ ↔
        ∃ p ∈ [p₀, p₁], c ∈ polygonToCells G₀ p 7 :=
  polyfill_multipolygon_union G₀ [p₀, p₁] 7 _ rfl

/-- Claim C7: an empty MultiPolygon polyfills to the empty Cell Set at any
valid resolution, and the empty Cell Set dissolves to an empty MultiPolygon
(zero polygons); neither direction produces an error. -/
theorem empty_to_empty (G : GridIndex) (T : Tracer) (r : ℕ)
    (hr : validRes r = true) :
    h3shape_to_cells G (.mpoly []) r = .ok ∅ ∧
      cells_to_h3shape G T (∅ : Finset Cell) = .mpoly [] := by
  constructor
  · unfold h3shape_to_cells
    rw [if_pos hr]
    rfl
  · unfold cells_to_h3shape components
    rw [Finset.sort_empty]
    rfl

/-- Witness for C7: resolution 7 is valid, and both empty-input directions
are evaluated in the concrete grid `G₀` with tracer `T₀`. -/
theorem empty_to_empty_witness :
    validRes 7 = true ∧
      (h3shape_to_cells G₀ (.mpoly []) 7 = .ok ∅ ∧
        cells_to_h3shape G₀ T₀ (∅ : Finset Cell) = .mpoly []) :=
  ⟨rfl, empty_to_empty G₀ T₀ 7 rfl⟩

/-- Claim C8: the output enumeration of a Cell Set produced by
`h3shape_to_cells` is in ascending cell-identifier order, contains no
duplicate cells, and the same input always yields the same enumeration. -/
theorem output_enumeration_deterministic (G : GridIndex) (s : H3Shape) (r : ℕ)
    (S : Finset Cell) (hS : h3shape_to_cells G s r = .ok S) :
    List.Sorted (· < ·) (enumerateCells S) ∧ (enumerateCells S).Nodup ∧
      ∀ (s' : H3Shape) (S' : Finset Cell), s' = s →
        h3shape_to_cells G s' r = .ok S' → enumerateCells S' = enumerateCells S := by
  refine ⟨Finset.sort_sorted_lt S, Finset.sort_nodup _ S, ?_⟩
  intro s' S' hs hS'
  subst hs
  rw [hS] at hS'
  cases hS'
  rfl

/-- Witness for C8: the concrete polyfill of the unit square at resolution 7
in `G₀`; the hypothesis is discharged at this concrete input. -/
theorem output_enumeration_deterministic_witness :
    List.Sorted (· < ·) (enumerateCells S₀) ∧ (enumerateCells S₀).Nodup ∧
      ∀ (s' : H3Shape) (S' : Finset Cell), s' = H3Shape.poly p₀ →
        h3shape_to_cells G₀ s' 7 = .ok S' → enumerateCells S' = enumerateCells S₀ :=
  output_enumeration_deterministic G₀ (.poly p₀) 7 S₀ rfl

/-- Claim C9: constructing a `LatLngPoly` fails synchronously with
`InvalidLoop` when any supplied loop (outer or hole) has fewer than 3
vertices, and no polygon value is produced on that failure. -/
theorem latlngpoly_invalid_loop (outer : Loop) (holes : List Loop)
    (hbad : outer.length < 3 ∨ ∃ h ∈ holes, h.length < 3) :
    mkLatLngPoly outer holes = .error .invalidLoop ∧
      ∀ p, mkLatLngPoly outer holes ≠ .ok p := by
  have hcond : (outer.length < 3 || holes.any (fun h => h.length < 3)) = true := by
    rw [Bool.or_eq_true, decide_eq_true_eq, List.any_eq_true]
    rcases hbad with h | ⟨x, hx, hlen⟩
    · exact Or.inl h
    · exact Or.inr ⟨x, hx, by simpa using hlen⟩
  constructor
  · unfold mkLatLngPoly
    rw [if_pos hcond]
  · intro p hp
    unfold mkLatLngPoly at hp
    rw [if_pos hcond] at hp
    cases hp

/-- Claim C3: for every non-empty Cell Set, every outer loop of every polygon
produced by `cells_to_h3shape` is wound counterclockwise and every hole loop
is wound clockwise (right-hand rule), provided the traced raw loops are
non-degenerate (nonzero signed area). -/
theorem dissolve_right_hand_rule (G : GridIndex) (T : Tracer)
    (cells : Finset Cell) (hne : cells ≠ ∅)
    (htrace : ∀ comp ∈ components G cells,
      signedArea (T.traceOuter comp) ≠ 0 ∧
        ∀ h ∈ T.traceHoles comp, signedArea h ≠ 0) :
    ∀ p ∈ (cells_to_h3shape G T cells).polys,
      isCCW p.outer = true ∧ ∀ h ∈ p.holes, isCW h = true := by
  intro p hp
  rw [cells_to_h3shape_polys] at hp
  obtain ⟨comp, hcomp, rfl⟩ := List.mem_map.mp hp
  obtain ⟨ho, hh⟩ := htrace comp hcomp
  refine ⟨orientCCW_isCCW _ ho, ?_⟩
  intro h hmem
  obtain ⟨h0, hh0, rfl⟩ := List.mem_map.mp hmem
  exact orientCW_isCW _ (hh h0 hh0)

/-- Witness for C3: dissolving the non-empty Cell Set `{0}` in the concrete
grid `G₀` with tracer `T₀` (square outer loop, triangular hole); the
hypotheses are discharged at this concrete input. -/
theorem dissolve_right_hand_rule_witness :
    ({0} : Finset Cell) ≠ ∅ ∧
      ∀ p ∈ (cells_to_h3shape G₀ T₀ ({0} : Finset Cell)).polys,
        isCCW p.outer = true ∧ ∀ h ∈ p.holes, isCW h = true := by
  have hsq : signedArea sqLoop = 2 := by
    norm_num [signedArea, cyclicEdges, sqLoop, List.zip_cons_cons]
  have htri : signedArea tri = 1 / 4 := by
    norm_num [signedArea, cyclicEdges, tri, List.zip_cons_cons]
  refine ⟨by decide, dissolve_right_hand_rule G₀ T₀ {0} (by decide) ?_⟩
  intro comp hcomp
  constructor
  · show signedArea sqLoop ≠ 0
    rw [hsq]
    norm_num
  · intro h hh
    have ht : h = tri := by simpa [T₀] using hh
    rw [ht, htri]
    norm_num

/-- Claim C4: for every Shape Model value `s` (whose loops meet the 3-vertex
minimum), `geo_to_h3shape (h3shape_to_geo s)` restores `s` itself — the
adapter strips the duplicate closing vertex and swaps (longitude, latitude)
back to (latitude, longitude) — so in particular the outer-loop vertex
multiset and the hole vertex multisets of the result equal those of `s`. -/
theorem geo_adapter_round_trip (s : H3Shape)
    (hv : ∀ p ∈ s.polys, 3 ≤ p.outer.length ∧ ∀ h ∈ p.holes, 3 ≤ h.length) :
    geo_to_h3shape (.geo (h3shape_to_geo s)) = .ok s ∧
      ∃ t, geo_to_h3shape (.geo (h3shape_to_geo s)) = .ok t ∧
        t.polys.map polyVertexData = s.polys.map polyVertexData := by
  have hmain : geo_to_h3shape (.geo (h3shape_to_geo s)) = .ok s := by
    cases s with
    | poly p =>
      have hp := hv p (by simp [H3Shape.polys])
      show (ringsToPoly (polyRings p)).map H3Shape.poly = .ok (.poly p)
      rw [ringsToPoly_polyRings p hp.1 hp.2]
      rfl
    | mpoly ps =>
      show ((ps.map polyRings).mapM ringsToPoly).map H3Shape.mpoly
        = .ok (.mpoly ps)
      rw [mapM_ringsToPoly ps (fun p hp => hv p hp)]
      rfl
  exact ⟨hmain, s, hmain, rfl⟩

/-- Witness for C4: the round trip through the Geo Adapter restores the
holed unit square exactly; the loop-size hypothesis is discharged at this
concrete input. -/
theorem geo_adapter_round_trip_witness :
    geo_to_h3shape (.geo (h3shape_to_geo (.poly p₁))) = .ok (.poly p₁) ∧
      ∃ t, geo_to_h3shape (.geo (h3shape_to_geo (.poly p₁))) = .ok t ∧
        t.polys.map polyVertexData = (H3Shape.poly p₁).polys.map polyVertexData :=
  geo_adapter_round_trip (.poly p₁) (by decide)

/-- Claim C10 (implicit): for every `H3Shape` value, the outbound adapter
`h3shape_to_geo` returns exactly the structure given by the shape's
`__geo_interface__` property — the two ways of obtaining the GeoJSON-like
representation are extensionally equal. -/
theorem h3shape_to_geo_eq_geo_interface (a : H3Shape) :
    h3shape_to_geo a = geo_interface a := by
  have hring : closeRing = ringOfLoop := by
    funext l
    cases l with
    | nil => rfl
    | cons x t => simp [closeRing, ringOfLoop]
  have hrings : polyRings = interfaceRings := by
    funext p
    unfold polyRings interfaceRings
    rw [hring]
  cases a with
  | poly p =>
    show Geo.polygon (polyRings p) = Geo.polygon (interfaceRings p)
    rw [hrings]
  | mpoly ps =>
    show Geo.multiPolygon (ps.map polyRings) = Geo.multiPolygon (ps.map interfaceRings)
    rw [hrings]

/-- Witness for C9: a two-vertex outer loop is rejected with `InvalidLoop`;
the hypothesis is discharged at this concrete input. -/
theorem latlngpoly_invalid_loop_witness :
    (([((0 : ℚ), (0 : ℚ)), (1, 1)] : Loop).length < 3 ∨
      ∃ h ∈ ([] : List Loop), h.length < 3) ∧
      (mkLatLngPoly [((0 : ℚ), (0 : ℚ)), (1, 1)] [] = .error .invalidLoop ∧
        ∀ p, mkLatLngPoly [((0 : ℚ), (0 : ℚ)), (1, 1)] [] ≠ .ok p) :=
  ⟨Or.inl (by decide),
   latlngpoly_invalid_loop [((0 : ℚ), (0 : ℚ)), (1, 1)] [] (Or.inl (by decide))⟩

end CHM
